import Mathlib

/-!
Verification of the variable-length edge-expansion subplan compiler
(`Expand::genEdgeProps`, `Expand::expandSteps`, `Expand::expandStep`,
`Expand::collectData`, `Expand::filterDatasetByPathLength`,
`Expand::passThrough` in `src/planner/match/Expand.cpp`).

The C++ code builds an executable dataflow plan out of arena-allocated plan
nodes.  We embed the plan graph as an inductive tree (each node keeps its
dependencies as children, together with its `outputVar` and `colNames`), the
expression trees as an inductive type, and the stateful fresh-output-variable
generation of the arena as an explicit counter threaded through every
constructor call.  Collaborator functions whose bodies are not part of the
sources (`MatchSolver::*`, `SegmentsConnector::innerJoinSegments`,
`RewriteMatchLabelVisitor`) are modelled from the spec; every such definition
is marked in its doc comment.
-/

namespace NebulaExpand

/-- Reserved storage property name `_src` (edge source id). -/
def kSrc : String := "_src"

/-- Reserved storage property name `_type` (edge type). -/
def kType : String := "_type"

/-- Reserved storage property name `_rank` (edge rank). -/
def kRank : String := "_rank"

/-- Reserved storage property name `_dst` (edge destination id). -/
def kDst : String := "_dst"

/-- Reserved column name `_vid` for the frontier vertex-id column. -/
def kVid : String := "_vid"

/-- The singular path column name used across the expansion subplan. -/
def kPathStr : String := "path"

/-- `storage::cpp2::EdgeDirection` as used by `EdgeInfo`. -/
inductive Direction where
  | OUT_EDGE
  | IN_EDGE
  | BOTH
  deriving DecidableEq

/-- Expression trees.  `PathBuildExpression` occurs in the sources only with
one element (zero-hop vertex path) or two elements (vertex+edge, or the
concatenation of two path columns), so it is embedded with fixed arities
`pathBuild1` / `pathBuild2`; `FunctionCallExpression` occurs only with a
single argument (`length(path)`, `hasSameEdgeInPath(path)`). -/
inductive Expr where
  | label (n : String)
  | labelAttribute (tag attrName : String)
  | vertex
  | edge
  | attr (obj key : Expr)
  | inputProp (n : String)
  | variableProp (var n : String)
  | constant (v : Int)
  | functionCall (f : String) (arg : Expr)
  | relGE (l r : Expr)
  | relLE (l r : Expr)
  | notE (a : Expr)
  | logicalAnd (l r : Expr)
  | pathBuild1 (a : Expr)
  | pathBuild2 (a b : Expr)
  deriving DecidableEq

/-- `storage::cpp2::EdgeProp`: an edge type id plus the property names to
fetch for that edge type. -/
structure EdgeProp where
  type : Int
  props : List String
  deriving DecidableEq

/-- `MatchStepRange`: declared hop range of a variable-length pattern. -/
structure MatchStepRange where
  min : Int
  max : Int
  deriving DecidableEq

/-- `EdgeInfo`: direction, edge types, optional hop range, optional edge
filter. -/
structure EdgeInfo where
  direction : Direction
  edgeTypes : List Int
  range : Option MatchStepRange
  filter : Option Expr
  deriving DecidableEq

/-- `NodeInfo`: the optional vertex filter of the pattern node. -/
structure NodeInfo where
  filter : Option Expr
  deriving DecidableEq

/-- The part of the query context the expansion uses: the schema manager,
giving the ordered field names of each edge type. -/
structure QCtx where
  schema : Int → List String

/-- The fixed column set {source, type, rank, destination} followed by every
schema field of edge type `t` (`props` built in `Expand::genEdgeProps`). -/
def stdProps (qc : QCtx) (t : Int) : List String :=
  [kSrc, kType, kRank, kDst] ++ qc.schema t

/-- One iteration of the loop body of `Expand::genEdgeProps`: the property
specification(s) emitted for a single edge type `t`.  The schema is looked up
with the original (positive) type id before any negation.  In the `BOTH` case
the switch body emits the negated spec and then falls through to the shared
tail emitting the positive spec. -/
def genEdgePropsFor (qc : QCtx) (reversely : Bool) (dir : Direction)
    (t : Int) : List EdgeProp :=
  match dir with
  | .OUT_EDGE => [⟨if reversely then -t else t, stdProps qc t⟩]
  | .IN_EDGE => [⟨if reversely then t else -t, stdProps qc t⟩]
  | .BOTH => [⟨-t, stdProps qc t⟩, ⟨t, stdProps qc t⟩]

/-- `Expand::genEdgeProps`: property specifications for all requested edge
types, in request order. -/
def genEdgeProps (qc : QCtx) (reversely : Bool) (edge : EdgeInfo) :
    List EdgeProp :=
  (edge.edgeTypes.map (genEdgePropsFor qc reversely edge.direction)).flatten

/-- Plan nodes.  A node keeps its dependencies as children (the arena only
adds sharing, which is irrelevant for the structural properties proved here),
its `outputVar` and its `colNames`.  Kind-specific payload: the projected
yield columns of a `Project`, the condition of a `Filter`, the edge property
specs and direction of a `GetNeighbors`. -/
inductive PlanNode where
  | start (outVar : String) (cols : List String)
  | project (dep : PlanNode) (outVar : String) (cols : List String)
      (yields : List Expr)
  | dedup (dep : PlanNode) (outVar : String) (cols : List String)
  | getNeighbors (dep : PlanNode) (outVar : String) (cols : List String)
      (edgeProps : List EdgeProp) (dir : Direction)
  | getVertices (dep : PlanNode) (outVar : String) (cols : List String)
  | filterNode (dep : PlanNode) (outVar : String) (cols : List String)
      (cond : Expr)
  | passThroughNode (dep : PlanNode) (outVar : String) (cols : List String)
  | unionNode (l r : PlanNode) (outVar : String) (cols : List String)
  | innerJoin (l r : PlanNode) (outVar : String) (cols : List String)
  deriving DecidableEq

namespace PlanNode

/-- `PlanNode::outputVar()`. -/
def outputVar : PlanNode → String
  | .start v _ => v
  | .project _ v _ _ => v
  | .dedup _ v _ => v
  | .getNeighbors _ v _ _ _ => v
  | .getVertices _ v _ => v
  | .filterNode _ v _ _ => v
  | .passThroughNode _ v _ => v
  | .unionNode _ _ v _ => v
  | .innerJoin _ _ v _ => v

/-- `PlanNode::colNames()`. -/
def colNames : PlanNode → List String
  | .start _ cs => cs
  | .project _ _ cs _ => cs
  | .dedup _ _ cs => cs
  | .getNeighbors _ _ cs _ _ => cs
  | .getVertices _ _ cs => cs
  | .filterNode _ _ cs _ => cs
  | .passThroughNode _ _ cs => cs
  | .unionNode _ _ _ cs => cs
  | .innerJoin _ _ _ cs => cs

/-- Number of nodes of kind `GetNeighbors` in the dependency tree. -/
def countGN : PlanNode → Nat
  | .start _ _ => 0
  | .project d _ _ _ => countGN d
  | .dedup d _ _ => countGN d
  | .getNeighbors d _ _ _ _ => 1 + countGN d
  | .getVertices d _ _ => countGN d
  | .filterNode d _ _ _ => countGN d
  | .passThroughNode d _ _ => countGN d
  | .unionNode l r _ _ => countGN l + countGN r
  | .innerJoin l r _ _ => countGN l + countGN r

/-- Number of nodes of kind `Union` in the dependency tree. -/
def countUnion : PlanNode → Nat
  | .start _ _ => 0
  | .project d _ _ _ => countUnion d
  | .dedup d _ _ => countUnion d
  | .getNeighbors d _ _ _ _ => countUnion d
  | .getVertices d _ _ => countUnion d
  | .filterNode d _ _ _ => countUnion d
  | .passThroughNode d _ _ => countUnion d
  | .unionNode l r _ _ => 1 + countUnion l + countUnion r
  | .innerJoin l r _ _ => countUnion l + countUnion r

/-- Number of nodes of kind `DataJoin` (inner join) in the dependency tree. -/
def countJoin : PlanNode → Nat
  | .start _ _ => 0
  | .project d _ _ _ => countJoin d
  | .dedup d _ _ => countJoin d
  | .getNeighbors d _ _ _ _ => countJoin d
  | .getVertices d _ _ => countJoin d
  | .filterNode d _ _ _ => countJoin d
  | .passThroughNode d _ _ => countJoin d
  | .unionNode l r _ _ => 1 + countJoin l + countJoin r
  | .innerJoin l r _ _ => 1 + countJoin l + countJoin r

/-- Every `Union` node in the tree carries exactly the column list
`[kPathStr]`. -/
def allUnionsPathCol : PlanNode → Bool
  | .start _ _ => true
  | .project d _ _ _ => allUnionsPathCol d
  | .dedup d _ _ => allUnionsPathCol d
  | .getNeighbors d _ _ _ _ => allUnionsPathCol d
  | .getVertices d _ _ => allUnionsPathCol d
  | .filterNode d _ _ _ => allUnionsPathCol d
  | .passThroughNode d _ _ => allUnionsPathCol d
  | .unionNode l r _ cs =>
      decide (cs = [kPathStr]) && allUnionsPathCol l && allUnionsPathCol r
  | .innerJoin l r _ _ => allUnionsPathCol l && allUnionsPathCol r

/-- Follow the right operand of `Union` nodes down to the first non-union
node: the node the very first accumulator was unioned with. -/
def unionBase : PlanNode → PlanNode
  | .unionNode _ r _ _ => unionBase r
  | n => n

/-- Whether the root node is a `PassThrough` node. -/
def isPassThrough : PlanNode → Bool
  | .passThroughNode _ _ _ => true
  | _ => false

/-- Peel all `Filter` nodes off the root of the tree. -/
def stripFilters : PlanNode → PlanNode
  | .filterNode d _ _ _ => stripFilters d
  | n => n

/-- Number of consecutive `Filter` nodes at the root of the tree. -/
def filterDepth : PlanNode → Nat
  | .filterNode d _ _ _ => 1 + filterDepth d
  | _ => 0

/-- Number of nodes of kind `Filter` in the dependency tree. -/
def countFilter : PlanNode → Nat
  | .start _ _ => 0
  | .project d _ _ _ => countFilter d
  | .dedup d _ _ => countFilter d
  | .getNeighbors d _ _ _ _ => countFilter d
  | .getVertices d _ _ => countFilter d
  | .filterNode d _ _ _ => 1 + countFilter d
  | .passThroughNode d _ _ => countFilter d
  | .unionNode l r _ _ => countFilter l + countFilter r
  | .innerJoin l r _ _ => countFilter l + countFilter r

end PlanNode

/-- Whether a less-or-equal comparison occurs anywhere in the expression
(used to state that no `<= maxHop` predicate is ever emitted). -/
def hasRelLE : Expr → Bool
  | .label _ => false
  | .labelAttribute _ _ => false
  | .vertex => false
  | .edge => false
  | .attr o k => hasRelLE o || hasRelLE k
  | .inputProp _ => false
  | .variableProp _ _ => false
  | .constant _ => false
  | .functionCall _ a => hasRelLE a
  | .relGE l r => hasRelLE l || hasRelLE r
  | .relLE _ _ => true
  | .notE a => hasRelLE a
  | .logicalAnd l r => hasRelLE l || hasRelLE r
  | .pathBuild1 a => hasRelLE a
  | .pathBuild2 a b => hasRelLE a || hasRelLE b

/-- `edge.range ? edge.range->min() : 1`. -/
def minHopOf (edge : EdgeInfo) : Int :=
  match edge.range with
  | some r => r.min
  | none => 1

/-- `edge.range ? edge.range->max() : 1`. -/
def maxHopOf (edge : EdgeInfo) : Int :=
  match edge.range with
  | some r => r.max
  | none => 1

/-- The start index chosen by `Expand::expandSteps`: `0` in the zero-hop
special case, `1` otherwise. -/
def startIndexOf (edge : EdgeInfo) : Int :=
  if minHopOf edge = 0 then 0 else 1

/-- `SubPlan`: the root/tail pair of a plan fragment. -/
structure SubPlan where
  root : PlanNode
  tail : PlanNode
  deriving DecidableEq

/-- Fresh output-variable names handed out by the arena, one per constructed
node, driven by an explicit counter. -/
def freshVar (c : Nat) : String := "__expand_" ++ toString c

/-- Modelled from the spec: `RewriteMatchLabelVisitor` (not among the
sources) — walks the expression tree and applies the supplied rewriter to
every label / label-attribute reference, rebuilding all other constructors
structurally.  The rewriter's `DCHECK` is modelled by returning `none`. -/
def rewriteMatchLabel (rw : Expr → Option Expr) : Expr → Option Expr
  | .label n => rw (.label n)
  | .labelAttribute t a => rw (.labelAttribute t a)
  | .vertex => some .vertex
  | .edge => some .edge
  | .attr o k => do
      some (.attr (← rewriteMatchLabel rw o) (← rewriteMatchLabel rw k))
  | .inputProp n => some (.inputProp n)
  | .variableProp v n => some (.variableProp v n)
  | .constant v => some (.constant v)
  | .functionCall f a => do some (.functionCall f (← rewriteMatchLabel rw a))
  | .relGE l r => do
      some (.relGE (← rewriteMatchLabel rw l) (← rewriteMatchLabel rw r))
  | .relLE l r => do
      some (.relLE (← rewriteMatchLabel rw l) (← rewriteMatchLabel rw r))
  | .notE a => do some (.notE (← rewriteMatchLabel rw a))
  | .logicalAnd l r => do
      some (.logicalAnd (← rewriteMatchLabel rw l)
        (← rewriteMatchLabel rw r))
  | .pathBuild1 a => do some (.pathBuild1 (← rewriteMatchLabel rw a))
  | .pathBuild2 a b => do
      some (.pathBuild2 (← rewriteMatchLabel rw a)
        (← rewriteMatchLabel rw b))

/-- The rewriter lambda attached to the vertex filter in
`Expand::expandStep`: a label-attribute reference becomes an attribute access
on a `VertexExpression` keyed by the same field name; a bare label becomes a
`VertexExpression`; any other kind fails the `DCHECK`. -/
def vertexFilterRewriter : Expr → Option Expr
  | .labelAttribute _ a => some (.attr .vertex (.label a))
  | .label _ => some .vertex
  | _ => none

/-- The rewriter lambda attached to the edge filter in `Expand::expandStep`:
only label-attribute references are accepted (`DCHECK_EQ`); each becomes an
attribute access on an `EdgeExpression` keyed by the same field name. -/
def edgeFilterRewriter : Expr → Option Expr
  | .labelAttribute _ a => some (.attr .edge (.label a))
  | _ => none

/-- Whether the expression still contains a label or label-attribute
reference.  The key child of an attribute access is a field name, not a
reference, so it is not counted. -/
def hasLabelRef : Expr → Bool
  | .label _ => true
  | .labelAttribute _ _ => true
  | .vertex => false
  | .edge => false
  | .attr o _ => hasLabelRef o
  | .inputProp _ => false
  | .variableProp _ _ => false
  | .constant _ => false
  | .functionCall _ a => hasLabelRef a
  | .relGE l r => hasLabelRef l || hasLabelRef r
  | .relLE l r => hasLabelRef l || hasLabelRef r
  | .notE a => hasLabelRef a
  | .logicalAnd l r => hasLabelRef l || hasLabelRef r
  | .pathBuild1 a => hasLabelRef a
  | .pathBuild2 a b => hasLabelRef a || hasLabelRef b

/-- Whether the expression contains no bare label reference (the edge-filter
precondition: only label-attribute references may occur). -/
def noBareLabel : Expr → Bool
  | .label _ => false
  | .labelAttribute _ _ => true
  | .vertex => true
  | .edge => true
  | .attr o k => noBareLabel o && noBareLabel k
  | .inputProp _ => true
  | .variableProp _ _ => true
  | .constant _ => true
  | .functionCall _ a => noBareLabel a
  | .relGE l r => noBareLabel l && noBareLabel r
  | .relLE l r => noBareLabel l && noBareLabel r
  | .notE a => noBareLabel a
  | .logicalAnd l r => noBareLabel l && noBareLabel r
  | .pathBuild1 a => noBareLabel a
  | .pathBuild2 a b => noBareLabel a && noBareLabel b

/-- The vertex-filter substitution exactly as the spec words it: every
label-attribute reference becomes a vertex-attribute reference carrying the
same field name, and every bare label reference becomes a vertex value
reference.  This is the spec-side definition compared against the
implementation's visitor. -/
def specVertexSubst : Expr → Expr
  | .label _ => .vertex
  | .labelAttribute _ a => .attr .vertex (.label a)
  | .vertex => .vertex
  | .edge => .edge
  | .attr o k => .attr (specVertexSubst o) (specVertexSubst k)
  | .inputProp n => .inputProp n
  | .variableProp v n => .variableProp v n
  | .constant v => .constant v
  | .functionCall f a => .functionCall f (specVertexSubst a)
  | .relGE l r => .relGE (specVertexSubst l) (specVertexSubst r)
  | .relLE l r => .relLE (specVertexSubst l) (specVertexSubst r)
  | .notE a => .notE (specVertexSubst a)
  | .logicalAnd l r => .logicalAnd (specVertexSubst l) (specVertexSubst r)
  | .pathBuild1 a => .pathBuild1 (specVertexSubst a)
  | .pathBuild2 a b => .pathBuild2 (specVertexSubst a) (specVertexSubst b)

/-- The edge-filter substitution exactly as the spec words it: every
label-attribute reference becomes an edge-attribute reference carrying the
same field name.  Spec-side definition compared against the implementation's
visitor. -/
def specEdgeSubst : Expr → Expr
  | .label n => .label n
  | .labelAttribute _ a => .attr .edge (.label a)
  | .vertex => .vertex
  | .edge => .edge
  | .attr o k => .attr (specEdgeSubst o) (specEdgeSubst k)
  | .inputProp n => .inputProp n
  | .variableProp v n => .variableProp v n
  | .constant v => .constant v
  | .functionCall f a => .functionCall f (specEdgeSubst a)
  | .relGE l r => .relGE (specEdgeSubst l) (specEdgeSubst r)
  | .relLE l r => .relLE (specEdgeSubst l) (specEdgeSubst r)
  | .notE a => .notE (specEdgeSubst a)
  | .logicalAnd l r => .logicalAnd (specEdgeSubst l) (specEdgeSubst r)
  | .pathBuild1 a => .pathBuild1 (specEdgeSubst a)
  | .pathBuild2 a b => .pathBuild2 (specEdgeSubst a) (specEdgeSubst b)

/-- `buildPathExpr` (static helper): path value built from the fetched
vertex and edge. -/
def buildPathExpr : Expr := .pathBuild2 .vertex .edge

/-- `mergePathColumnsExpr` (static helper): concatenates two path columns
into one path value. -/
def mergePathColumnsExpr (lcol rcol : String) : Expr :=
  .pathBuild2 (.inputProp lcol) (.inputProp rcol)

/-- Modelled from the spec: `MatchSolver::extractAndDedupVidColumn` (not
among the sources) — projects the frontier's destination-vertex-id column
out of the dependency into a single `_vid` column and deduplicates it; the
fragment's root is the dedup node, its tail the extracting project node. -/
def extractAndDedupVidColumn (dep : PlanNode) (c : Nat) : SubPlan × Nat :=
  let extract := PlanNode.project dep (freshVar c) [kVid] [Expr.inputProp kVid]
  let dd := PlanNode.dedup extract (freshVar (c + 1)) [kVid]
  (⟨dd, extract⟩, c + 2)

/-- Lift a rewriter over the optional filter of a step: an absent filter
stays absent, a present one must rewrite successfully. -/
def rewriteOptFilter (rw : Expr → Option Expr) :
    Option Expr → Option (Option Expr)
  | none => some none
  | some f => (rewriteMatchLabel rw f).map some

/-- The optional vertex filter rewrites without a contract violation. -/
def nodeFilterOk (nf : Option Expr) : Bool :=
  (rewriteOptFilter vertexFilterRewriter nf).isSome

/-- The optional edge filter rewrites without a contract violation. -/
def edgeFilterOk (edge : EdgeInfo) : Bool :=
  (rewriteOptFilter edgeFilterRewriter edge.filter).isSome

/-- `Expand::expandStep`: dedup the frontier, fetch neighbors with the
direction-resolved edge property specs, attach the rewritten vertex and edge
filters when present, and project the one-hop path value into the single
column `path`.  Returns `none` when a filter rewrite hits the visitor's
contract violation. -/
def expandStep (qc : QCtx) (reversely : Bool) (edge : EdgeInfo)
    (dep : PlanNode) (nodeFilter : Option Expr) (c : Nat) :
    Option (SubPlan × Nat) :=
  let curr := extractAndDedupVidColumn dep c
  let gn := PlanNode.getNeighbors curr.1.root (freshVar curr.2) []
    (genEdgeProps qc reversely edge) edge.direction
  let c1 := curr.2 + 1
  match rewriteOptFilter vertexFilterRewriter nodeFilter with
  | none => none
  | some rwv =>
    match rewriteOptFilter edgeFilterRewriter edge.filter with
    | none => none
    | some rwe =>
      let afterV : PlanNode × Nat :=
        match rwv with
        | none => (gn, c1)
        | some f =>
          (PlanNode.filterNode gn (freshVar c1) gn.colNames f, c1 + 1)
      let afterE : PlanNode × Nat :=
        match rwe with
        | none => afterV
        | some f =>
          (PlanNode.filterNode afterV.1 (freshVar afterV.2)
            afterV.1.colNames f, afterV.2 + 1)
      let proj := PlanNode.project afterE.1 (freshVar afterE.2) [kPathStr]
        [buildPathExpr]
      some (⟨proj, curr.1.tail⟩, afterE.2 + 1)

/-- Modelled from the spec: `MatchSolver::filtPathHasSameEdge` (not among
the sources) — a filter node discarding any path that revisits the same
edge, with the input's column names. -/
def filtPathHasSameEdge (input : PlanNode) (col : String) (c : Nat) :
    PlanNode × Nat :=
  (PlanNode.filterNode input (freshVar c) input.colNames
    (.notE (.functionCall "hasSameEdgeInPath" (.inputProp col))), c + 1)

/-- `Expand::collectData`: inner-join the previous accumulator with the new
one-hop fragment (columns `path_0` / `path_1`), concatenate the two path
values into one `path` column, filter out paths revisiting the same edge,
wrap the result in a pass-through accumulator carrying the filter's output
variable, and union the accumulator with the running union node.  Returns
the new accumulator together with the new `SubPlan` (root = the union, tail
= the join). -/
def collectData (joinLeft joinRight inUnionNode : PlanNode) (c : Nat) :
    (PlanNode × SubPlan) × Nat :=
  let lpath := kPathStr ++ "_0"
  let rpath := kPathStr ++ "_1"
  let join := PlanNode.innerJoin joinLeft joinRight (freshVar c)
    [lpath, rpath]
  let proj := PlanNode.project join (freshVar (c + 1)) [kPathStr]
    [mergePathColumnsExpr lpath rpath]
  let fp := filtPathHasSameEdge proj kPathStr (c + 2)
  let pt := PlanNode.passThroughNode fp.1 fp.1.outputVar [kPathStr]
  let uNode := PlanNode.unionNode pt inUnionNode (freshVar fp.2) [kPathStr]
  ((pt, ⟨uNode, join⟩), fp.2 + 1)

/-- `Expand::filterDatasetByPathLength`: attach a single filter node with
predicate `length(relationships(path)) >= minHop` on top of `input`;
`minHop` defaults to `1` when no hop range was declared. -/
def filterDatasetByPathLength (edge : EdgeInfo) (input : PlanNode)
    (plan : SubPlan) (c : Nat) : SubPlan × Nat :=
  let cond := Expr.relGE (.functionCall "length" (.inputProp kPathStr))
    (.constant (minHopOf edge))
  (⟨PlanNode.filterNode input (freshVar c) input.colNames cond, plan.tail⟩,
    c + 1)

/-- `Expand::passThrough`: a pass-through node over `root` aliasing `root`'s
output variable and column names. -/
def passThrough (root : PlanNode) : PlanNode :=
  PlanNode.passThroughNode root root.outputVar root.colNames

/-- Modelled from the spec: `MatchSolver::appendFetchVertexPlan` (not among
the sources) — the zero-hop branch fetches the starting vertex itself
(`GetVertices`, not a neighbor fetch) and projects it to a single-vertex
path value in the column `path`. -/
def appendFetchVertexPlan (_nodeFilter : Option Expr) (plan : SubPlan)
    (c : Nat) : SubPlan × Nat :=
  let ex := extractAndDedupVidColumn plan.root c
  let gv := PlanNode.getVertices ex.1.root (freshVar ex.2) []
  let proj := PlanNode.project gv (freshVar (ex.2 + 1)) [kPathStr]
    [Expr.pathBuild1 .vertex]
  (⟨proj, ex.1.tail⟩, ex.2 + 2)

/-- The loop `for (; startIndex < maxHop; ++startIndex)` of
`Expand::expandSteps`, with its iteration count `(maxHop - startIndex).toNat`
made explicit as structural fuel.  Each iteration expands one more step from
the current accumulator (with no vertex filter) and collects the new
fragment into the running union. -/
def expandLoop (qc : QCtx) (reversely : Bool) (edge : EdgeInfo) :
    Nat → PlanNode → SubPlan → Nat → Option (SubPlan × Nat)
  | 0, _, subplan, c => some (subplan, c)
  | fuel + 1, pt, subplan, c =>
    match expandStep qc reversely edge pt none c with
    | none => none
    | some (curr, c1) =>
      let col := collectData pt curr.root subplan.root c1
      expandLoop qc reversely edge fuel col.1.1 col.1.2 col.2

/-- `Expand::expandSteps`: the zero-hop special case fetches the starting
vertex and wraps it in a pass-through when `maxHop > 0`; otherwise the first
hop is expanded from the dependency and wrapped in a pass-through; then the
collection loop folds in one extra hop per iteration.  Only the root of the
final subplan is copied back into `plan`. -/
def expandSteps (qc : QCtx) (reversely : Bool) (node : NodeInfo)
    (edge : EdgeInfo) (dependency : PlanNode) (plan : SubPlan) (c : Nat) :
    Option (SubPlan × Nat) :=
  let minHop : Int := minHopOf edge
  let maxHop : Int := maxHopOf edge
  if minHop = 0 then
    let f := appendFetchVertexPlan node.filter plan c
    let subplan : SubPlan :=
      if 0 < maxHop then ⟨passThrough f.1.root, f.1.tail⟩ else f.1
    match expandLoop qc reversely edge (maxHop - 0).toNat subplan.root
        subplan f.2 with
    | none => none
    | some (sp, c2) => some (⟨sp.root, plan.tail⟩, c2)
  else
    match expandStep qc reversely edge dependency node.filter c with
    | none => none
    | some (first, c1) =>
      let subplan : SubPlan := ⟨passThrough first.root, first.tail⟩
      match expandLoop qc reversely edge (maxHop - 1).toNat subplan.root
          subplan c1 with
      | none => none
      | some (sp, c2) => some (⟨sp.root, plan.tail⟩, c2)

/-- `Expand::doExpand`: expand all steps, then attach the path-length
filter. -/
def doExpand (qc : QCtx) (reversely : Bool) (node : NodeInfo)
    (edge : EdgeInfo) (dependency : PlanNode) (plan : SubPlan) (c : Nat) :
    Option (SubPlan × Nat) :=
  match expandSteps qc reversely node edge dependency plan c with
  | none => none
  | some (p, c1) => some (filterDatasetByPathLength edge p.root p c1)

/-! ## Theorems -/

/-- C1: in `genEdgeProps`, direction `OUT` uses the positive type id when
`reversely` is false and the negated id when it is true; direction `IN` uses
the negated id when `reversely` is false and the positive id when it is
true; direction `BOTH` emits the same specs regardless of `reversely`. -/
theorem genEdgeProps_direction_reversely (qc : QCtx) (ts : List Int)
    (rng : Option MatchStepRange) (f : Option Expr) :
    ((genEdgeProps qc false ⟨.OUT_EDGE, ts, rng, f⟩).map EdgeProp.type = ts ∧
      (genEdgeProps qc true ⟨.OUT_EDGE, ts, rng, f⟩).map EdgeProp.type
        = ts.map (fun t => -t)) ∧
    ((genEdgeProps qc false ⟨.IN_EDGE, ts, rng, f⟩).map EdgeProp.type
        = ts.map (fun t => -t) ∧
      (genEdgeProps qc true ⟨.IN_EDGE, ts, rng, f⟩).map EdgeProp.type
        = ts) ∧
    genEdgeProps qc true ⟨.BOTH, ts, rng, f⟩
      = genEdgeProps qc false ⟨.BOTH, ts, rng, f⟩ := by
  refine ⟨⟨?_, ?_⟩, ⟨?_, ?_⟩, ?_⟩ <;>
    · induction ts with
      | nil => rfl
      | cons t ts ih => simp_all [genEdgeProps, genEdgePropsFor]

/-- C3: for direction `BOTH` with `n` edge types `genEdgeProps` returns
exactly `2n` property specifications — per type one with the negated id and
one with the positive id, each carrying
`{_src, _type, _rank, _dst} ++ schema fields` — while `OUT` and `IN` return
exactly `n` specs. -/
theorem genEdgeProps_both_doubles (qc : QCtx) (r : Bool) (ts : List Int)
    (rng : Option MatchStepRange) (f : Option Expr) :
    genEdgeProps qc r ⟨.BOTH, ts, rng, f⟩
      = (ts.map (fun t =>
          [EdgeProp.mk (-t) (stdProps qc t),
            EdgeProp.mk t (stdProps qc t)])).flatten ∧
    (genEdgeProps qc r ⟨.BOTH, ts, rng, f⟩).length = 2 * ts.length ∧
    (∀ t : Int, stdProps qc t = [kSrc, kType, kRank, kDst] ++ qc.schema t) ∧
    (genEdgeProps qc r ⟨.OUT_EDGE, ts, rng, f⟩).length = ts.length ∧
    (genEdgeProps qc r ⟨.IN_EDGE, ts, rng, f⟩).length = ts.length := by
  refine ⟨?_, ?_, fun t => rfl, ?_, ?_⟩ <;>
    · induction ts with
      | nil => rfl
      | cons t ts ih =>
        simp_all [genEdgeProps, genEdgePropsFor]
        try omega

/-- C2: `filterDatasetByPathLength` attaches exactly one filter node on top
of its input, with the input's column names and the predicate
`length(path) >= minHop`; `minHop` is the declared range minimum, `1` when
no range is declared; the predicate contains no `<=` comparison. -/
theorem filterDatasetByPathLength_min_only (edge : EdgeInfo)
    (input : PlanNode) (plan : SubPlan) (c : Nat) :
    filterDatasetByPathLength edge input plan c
      = (⟨.filterNode input (freshVar c) input.colNames
            (.relGE (.functionCall "length" (.inputProp kPathStr))
              (.constant (minHopOf edge))), plan.tail⟩, c + 1) ∧
    (∀ d ts g, minHopOf ⟨d, ts, none, g⟩ = 1) ∧
    (∀ d ts g rg, minHopOf ⟨d, ts, some rg, g⟩ = rg.min) ∧
    hasRelLE (.relGE (.functionCall "length" (.inputProp kPathStr))
      (.constant (minHopOf edge))) = false ∧
    ((filterDatasetByPathLength edge input plan c).1.root.countFilter
      = input.countFilter + 1) := by
  refine ⟨rfl, fun d ts g => rfl, fun d ts g rg => rfl, rfl, ?_⟩
  simp [filterDatasetByPathLength, PlanNode.countFilter, Nat.add_comm]

/-- The visitor with the vertex rewriter computes exactly the spec-side
vertex substitution. -/
theorem rewriteV_eq (e : Expr) :
    rewriteMatchLabel vertexFilterRewriter e = some (specVertexSubst e) := by
  induction e <;>
    simp_all [rewriteMatchLabel, vertexFilterRewriter, specVertexSubst]

/-- The vertex substitution leaves no label reference behind. -/
theorem specVertexSubst_noLabel (e : Expr) :
    hasLabelRef (specVertexSubst e) = false := by
  induction e <;> simp_all [specVertexSubst, hasLabelRef]

/-- With no bare label present, the visitor with the edge rewriter computes
exactly the spec-side edge substitution. -/
theorem rewriteE_eq (e : Expr) (h : noBareLabel e = true) :
    rewriteMatchLabel edgeFilterRewriter e = some (specEdgeSubst e) := by
  induction e <;>
    simp_all [rewriteMatchLabel, edgeFilterRewriter, specEdgeSubst,
      noBareLabel]

/-- With no bare label present, the edge substitution leaves no label
reference behind. -/
theorem specEdgeSubst_noLabel (e : Expr) (h : noBareLabel e = true) :
    hasLabelRef (specEdgeSubst e) = false := by
  induction e <;> simp_all [specEdgeSubst, hasLabelRef, noBareLabel]

/-- A bare label anywhere in an edge filter trips the rewriter's
`DCHECK_EQ`: the rewrite aborts. -/
theorem rewriteE_none (e : Expr) (h : noBareLabel e = false) :
    rewriteMatchLabel edgeFilterRewriter e = none := by
  induction e with
  | label n => rfl
  | labelAttribute t a => simp [noBareLabel] at h
  | vertex => simp [noBareLabel] at h
  | edge => simp [noBareLabel] at h
  | attr o k iho ihk =>
    simp only [noBareLabel, Bool.and_eq_false_iff] at h
    rcases h with h | h
    · simp [rewriteMatchLabel, iho h]
    · cases ho : noBareLabel o
      · simp [rewriteMatchLabel, iho ho]
      · simp [rewriteMatchLabel, rewriteE_eq o ho, ihk h]
  | inputProp n => simp [noBareLabel] at h
  | variableProp v n => simp [noBareLabel] at h
  | constant v => simp [noBareLabel] at h
  | functionCall f a ih => simp [noBareLabel] at h; simp [rewriteMatchLabel, ih h]
  | relGE l r ihl ihr =>
    simp only [noBareLabel, Bool.and_eq_false_iff] at h
    rcases h with h | h
    · simp [rewriteMatchLabel, ihl h]
    · cases hl : noBareLabel l
      · simp [rewriteMatchLabel, ihl hl]
      · simp [rewriteMatchLabel, rewriteE_eq l hl, ihr h]
  | relLE l r ihl ihr =>
    simp only [noBareLabel, Bool.and_eq_false_iff] at h
    rcases h with h | h
    · simp [rewriteMatchLabel, ihl h]
    · cases hl : noBareLabel l
      · simp [rewriteMatchLabel, ihl hl]
      · simp [rewriteMatchLabel, rewriteE_eq l hl, ihr h]
  | notE a ih => simp [noBareLabel] at h; simp [rewriteMatchLabel, ih h]
  | logicalAnd l r ihl ihr =>
    simp only [noBareLabel, Bool.and_eq_false_iff] at h
    rcases h with h | h
    · simp [rewriteMatchLabel, ihl h]
    · cases hl : noBareLabel l
      · simp [rewriteMatchLabel, ihl hl]
      · simp [rewriteMatchLabel, rewriteE_eq l hl, ihr h]
  | pathBuild1 a ih => simp [noBareLabel] at h; simp [rewriteMatchLabel, ih h]
  | pathBuild2 a b iha ihb =>
    simp only [noBareLabel, Bool.and_eq_false_iff] at h
    rcases h with h | h
    · simp [rewriteMatchLabel, iha h]
    · cases ha : noBareLabel a
      · simp [rewriteMatchLabel, iha ha]
      · simp [rewriteMatchLabel, rewriteE_eq a ha, ihb h]

/-- Shape of a successful `expandStep`: the root is a projection of the
one-hop path value into the single column `path`, the tail is the extracting
project over the given dependency, and under the filters at the root sits
the neighbor fetch over the dedup'd frontier; one filter node is present per
non-null input filter; the step adds exactly one neighbor fetch and no union
or join. -/
theorem expandStep_shape (qc : QCtx) (rev : Bool) (edge : EdgeInfo)
    (dep : PlanNode) (nf : Option Expr) (c : Nat)
    (hef : edgeFilterOk edge = true) :
    ∃ mid v c2,
      expandStep qc rev edge dep nf c
        = some (⟨.project mid v [kPathStr] [buildPathExpr],
            .project dep (freshVar c) [kVid] [Expr.inputProp kVid]⟩, c2) ∧
      mid.stripFilters
        = .getNeighbors
            (.dedup (.project dep (freshVar c) [kVid] [Expr.inputProp kVid])
              (freshVar (c + 1)) [kVid])
            (freshVar (c + 2)) [] (genEdgeProps qc rev edge)
            edge.direction ∧
      mid.filterDepth
        = (if nf.isSome then 1 else 0)
          + (if edge.filter.isSome then 1 else 0) ∧
      mid.countUnion = dep.countUnion ∧
      mid.countJoin = dep.countJoin ∧
      mid.countGN = dep.countGN + 1 ∧
      (nf = none ∧ edge.filter = none →
        mid = .getNeighbors
          (.dedup (.project dep (freshVar c) [kVid] [Expr.inputProp kVid])
            (freshVar (c + 1)) [kVid])
          (freshVar (c + 2)) [] (genEdgeProps qc rev edge)
          edge.direction) ∧
      (∀ f, nf = some f → edge.filter = none →
        mid = .filterNode
          (.getNeighbors
            (.dedup (.project dep (freshVar c) [kVid] [Expr.inputProp kVid])
              (freshVar (c + 1)) [kVid])
            (freshVar (c + 2)) [] (genEdgeProps qc rev edge) edge.direction)
          (freshVar (c + 3)) [] (specVertexSubst f)) ∧
      (∀ g, nf = none → edge.filter = some g →
        mid = .filterNode
          (.getNeighbors
            (.dedup (.project dep (freshVar c) [kVid] [Expr.inputProp kVid])
              (freshVar (c + 1)) [kVid])
            (freshVar (c + 2)) [] (genEdgeProps qc rev edge) edge.direction)
          (freshVar (c + 3)) [] (specEdgeSubst g)) ∧
      (∀ f g, nf = some f → edge.filter = some g →
        mid = .filterNode
          (.filterNode
            (.getNeighbors
              (.dedup
                (.project dep (freshVar c) [kVid] [Expr.inputProp kVid])
                (freshVar (c + 1)) [kVid])
              (freshVar (c + 2)) [] (genEdgeProps qc rev edge)
              edge.direction)
            (freshVar (c + 3)) [] (specVertexSubst f))
          (freshVar (c + 4)) [] (specEdgeSubst g)) ∧
      mid.allUnionsPathCol = dep.allUnionsPathCol := by
  cases nf with
  | none =>
    cases hf : edge.filter with
    | none =>
      refine ⟨.getNeighbors
          (.dedup (.project dep (freshVar c) [kVid] [Expr.inputProp kVid])
            (freshVar (c + 1)) [kVid])
          (freshVar (c + 2)) [] (genEdgeProps qc rev edge) edge.direction,
        freshVar (c + 3), c + 4, ?_, ?_, ?_, ?_, ?_, ?_, ?_, ?_, ?_, ?_, ?_⟩ <;>
        simp [expandStep, extractAndDedupVidColumn, rewriteOptFilter, hf,
          PlanNode.stripFilters, PlanNode.filterDepth, PlanNode.countUnion,
          PlanNode.countJoin, PlanNode.countGN,
          PlanNode.allUnionsPathCol] <;> try omega
    | some g =>
      have hg : rewriteMatchLabel edgeFilterRewriter g
          = some (specEdgeSubst g) := by
        have := hef
        simp only [edgeFilterOk, rewriteOptFilter, hf, Option.isSome_map]
          at this
        exact rewriteE_eq g (by
          cases hb : noBareLabel g
          · exact absurd (rewriteE_none g hb) (by
              intro hc
              simp [hc] at this)
          · rfl)
      refine ⟨.filterNode
          (.getNeighbors
            (.dedup (.project dep (freshVar c) [kVid] [Expr.inputProp kVid])
              (freshVar (c + 1)) [kVid])
            (freshVar (c + 2)) [] (genEdgeProps qc rev edge) edge.direction)
          (freshVar (c + 3)) [] (specEdgeSubst g),
        freshVar (c + 4), c + 5, ?_, ?_, ?_, ?_, ?_, ?_, ?_, ?_, ?_, ?_, ?_⟩ <;>
        simp [expandStep, extractAndDedupVidColumn, rewriteOptFilter, hf, hg,
          PlanNode.stripFilters, PlanNode.filterDepth, PlanNode.countUnion,
          PlanNode.countJoin, PlanNode.countGN, PlanNode.colNames,
          PlanNode.allUnionsPathCol] <;> try omega
  | some f =>
    cases hf : edge.filter with
    | none =>
      refine ⟨.filterNode
          (.getNeighbors
            (.dedup (.project dep (freshVar c) [kVid] [Expr.inputProp kVid])
              (freshVar (c + 1)) [kVid])
            (freshVar (c + 2)) [] (genEdgeProps qc rev edge) edge.direction)
          (freshVar (c + 3)) [] (specVertexSubst f),
        freshVar (c + 4), c + 5, ?_, ?_, ?_, ?_, ?_, ?_, ?_, ?_, ?_, ?_, ?_⟩ <;>
        simp [expandStep, extractAndDedupVidColumn, rewriteOptFilter, hf,
          rewriteV_eq, PlanNode.stripFilters, PlanNode.filterDepth,
          PlanNode.countUnion, PlanNode.countJoin, PlanNode.countGN,
          PlanNode.colNames, PlanNode.allUnionsPathCol] <;> try omega
    | some g =>
      have hg : rewriteMatchLabel edgeFilterRewriter g
          = some (specEdgeSubst g) := by
        have := hef
        simp only [edgeFilterOk, rewriteOptFilter, hf, Option.isSome_map]
          at this
        exact rewriteE_eq g (by
          cases hb : noBareLabel g
          · exact absurd (rewriteE_none g hb) (by
              intro hc
              simp [hc] at this)
          · rfl)
      refine ⟨.filterNode
          (.filterNode
            (.getNeighbors
              (.dedup
                (.project dep (freshVar c) [kVid] [Expr.inputProp kVid])
                (freshVar (c + 1)) [kVid])
              (freshVar (c + 2)) [] (genEdgeProps qc rev edge)
              edge.direction)
            (freshVar (c + 3)) [] (specVertexSubst f))
          (freshVar (c + 4)) [] (specEdgeSubst g),
        freshVar (c + 5), c + 6, ?_, ?_, ?_, ?_, ?_, ?_, ?_, ?_, ?_, ?_, ?_⟩ <;>
        simp [expandStep, extractAndDedupVidColumn, rewriteOptFilter, hf, hg,
          rewriteV_eq, PlanNode.stripFilters, PlanNode.filterDepth,
          PlanNode.countUnion, PlanNode.countJoin, PlanNode.countGN,
          PlanNode.colNames, PlanNode.allUnionsPathCol] <;> try omega

/-- `collectData` fully computed: inner join with columns
`path_0`/`path_1`, merge projection into `path`, same-edge filter,
pass-through accumulator aliasing the filter's output variable, and union
(columns `[path]`) of the accumulator with the running union node. -/
theorem collectData_eq (a b u : PlanNode) (c : Nat) :
    collectData a b u c
      = ((.passThroughNode
            (.filterNode
              (.project
                (.innerJoin a b (freshVar c)
                  [kPathStr ++ "_0", kPathStr ++ "_1"])
                (freshVar (c + 1)) [kPathStr]
                [mergePathColumnsExpr (kPathStr ++ "_0") (kPathStr ++ "_1")])
              (freshVar (c + 2)) [kPathStr]
              (.notE (.functionCall "hasSameEdgeInPath"
                (.inputProp kPathStr))))
            (freshVar (c + 2)) [kPathStr],
          ⟨.unionNode
              (.passThroughNode
                (.filterNode
                  (.project
                    (.innerJoin a b (freshVar c)
                      [kPathStr ++ "_0", kPathStr ++ "_1"])
                    (freshVar (c + 1)) [kPathStr]
                    [mergePathColumnsExpr (kPathStr ++ "_0")
                      (kPathStr ++ "_1")])
                  (freshVar (c + 2)) [kPathStr]
                  (.notE (.functionCall "hasSameEdgeInPath"
                    (.inputProp kPathStr))))
                (freshVar (c + 2)) [kPathStr])
              u (freshVar (c + 3)) [kPathStr],
            .innerJoin a b (freshVar c)
              [kPathStr ++ "_0", kPathStr ++ "_1"]⟩),
        c + 4) := rfl

/-- Invariants of the expansion loop: it always succeeds (the vertex filter
is absent in the loop, and the edge filter is assumed rewritable); every
iteration adds exactly one `Union` node; every `Union` in the result carries
the single column `path`; the bottom of the union chain stays the initial
accumulator; and the result root is the initial subplan when no iteration
ran, a `[path]`-column union otherwise. -/
theorem expandLoop_spec (qc : QCtx) (rev : Bool) (edge : EdgeInfo)
    (hef : edgeFilterOk edge = true) :
    ∀ (fuel : Nat) (pt : PlanNode) (subplan : SubPlan) (c : Nat),
      pt.countUnion = 0 → pt.allUnionsPathCol = true →
      subplan.root.allUnionsPathCol = true →
      ∃ sp c2,
        expandLoop qc rev edge fuel pt subplan c = some (sp, c2) ∧
        sp.root.countUnion = subplan.root.countUnion + fuel ∧
        sp.root.allUnionsPathCol = true ∧
        sp.root.unionBase = subplan.root.unionBase ∧
        ((fuel = 0 ∧ sp = subplan) ∨
          ∃ l r v, sp.root = .unionNode l r v [kPathStr]) := by
  intro fuel
  induction fuel with
  | zero =>
    intro pt subplan c h1 h2 h3
    exact ⟨subplan, c, rfl, by simp, h3, rfl, Or.inl ⟨rfl, rfl⟩⟩
  | succ fuel ih =>
    intro pt subplan c h1 h2 h3
    obtain ⟨mid, v, c2, hstep, hstrip, hdepth, hu, hj, hg, _, _, _, _,
        hall⟩ :=
      expandStep_shape qc rev edge pt none c hef
    have hloop : expandLoop qc rev edge (fuel + 1) pt subplan c
        = expandLoop qc rev edge fuel
            (collectData pt (.project mid v [kPathStr] [buildPathExpr])
              subplan.root c2).1.1
            (collectData pt (.project mid v [kPathStr] [buildPathExpr])
              subplan.root c2).1.2
            (collectData pt (.project mid v [kPathStr] [buildPathExpr])
              subplan.root c2).2 := by
      simp [expandLoop, hstep]
    rw [collectData_eq] at hloop
    obtain ⟨sp, c3, hrun, hcount, hall2, hbase, hshape⟩ :=
      ih (.passThroughNode
            (.filterNode
              (.project
                (.innerJoin pt (.project mid v [kPathStr] [buildPathExpr])
                  (freshVar c2) [kPathStr ++ "_0", kPathStr ++ "_1"])
                (freshVar (c2 + 1)) [kPathStr]
                [mergePathColumnsExpr (kPathStr ++ "_0") (kPathStr ++ "_1")])
              (freshVar (c2 + 2)) [kPathStr]
              (.notE (.functionCall "hasSameEdgeInPath"
                (.inputProp kPathStr))))
            (freshVar (c2 + 2)) [kPathStr])
        ⟨.unionNode
            (.passThroughNode
              (.filterNode
                (.project
                  (.innerJoin pt (.project mid v [kPathStr] [buildPathExpr])
                    (freshVar c2) [kPathStr ++ "_0", kPathStr ++ "_1"])
                  (freshVar (c2 + 1)) [kPathStr]
                  [mergePathColumnsExpr (kPathStr ++ "_0")
                    (kPathStr ++ "_1")])
                (freshVar (c2 + 2)) [kPathStr]
                (.notE (.functionCall "hasSameEdgeInPath"
                  (.inputProp kPathStr))))
              (freshVar (c2 + 2)) [kPathStr])
            subplan.root (freshVar (c2 + 3)) [kPathStr],
          .innerJoin pt (.project mid v [kPathStr] [buildPathExpr])
            (freshVar c2) [kPathStr ++ "_0", kPathStr ++ "_1"]⟩
        (c2 + 4)
        (by simp [PlanNode.countUnion, h1, hu])
        (by simp [PlanNode.allUnionsPathCol, h2, hall])
        (by simp [PlanNode.allUnionsPathCol, h2, hall, h3])
    refine ⟨sp, c3, by rw [hloop]; exact hrun, ?_, hall2, ?_, ?_⟩
    · rw [hcount]
      simp [PlanNode.countUnion, h1, hu]
      omega
    · rw [hbase]
      simp [PlanNode.unionBase]
    · rcases hshape with ⟨hf0, hsp⟩ | hsp
      · subst hsp
        exact Or.inr ⟨_, _, _, rfl⟩
      · exact Or.inr hsp

/-- A tree without union nodes trivially satisfies the union-column
invariant. -/
theorem allUnions_of_countUnion_zero (n : PlanNode)
    (h : n.countUnion = 0) : n.allUnionsPathCol = true := by
  induction n <;>
    (simp_all [PlanNode.countUnion, PlanNode.allUnionsPathCol]; try omega)

/-- `appendFetchVertexPlan` fully computed: extract-and-dedup the vertex id,
fetch the vertices themselves, project to a single-vertex path. -/
theorem appendFetchVertexPlan_eq (nf : Option Expr) (plan : SubPlan)
    (c : Nat) :
    appendFetchVertexPlan nf plan c
      = (⟨.project
            (.getVertices
              (.dedup
                (.project plan.root (freshVar c) [kVid]
                  [Expr.inputProp kVid])
                (freshVar (c + 1)) [kVid])
              (freshVar (c + 2)) [])
            (freshVar (c + 3)) [kPathStr] [Expr.pathBuild1 .vertex],
          .project plan.root (freshVar c) [kVid] [Expr.inputProp kVid]⟩,
        c + 4) := rfl

/-- The zero-hop branch of `expandSteps` (`minHop = 0`): the starting vertex
is fetched (not expanded), wrapped in a pass-through exactly when
`maxHop > 0`, and the loop then contributes `maxHop` unions, all with the
single column `path`; with `maxHop <= 0` the fetch-vertex root itself is
returned unchanged. -/
theorem expandSteps_zero_spec (qc : QCtx) (rev : Bool) (node : NodeInfo)
    (edge : EdgeInfo) (dependency : PlanNode) (plan : SubPlan) (c : Nat)
    (hef : edgeFilterOk edge = true) (h0 : minHopOf edge = 0)
    (hpu : plan.root.countUnion = 0) :
    ∃ sp c2,
      expandSteps qc rev node edge dependency plan c = some (sp, c2) ∧
      sp.tail = plan.tail ∧
      sp.root.countUnion = (maxHopOf edge).toNat ∧
      sp.root.allUnionsPathCol = true ∧
      (maxHopOf edge ≤ 0 →
        sp.root = (appendFetchVertexPlan node.filter plan c).1.root ∧
        c2 = (appendFetchVertexPlan node.filter plan c).2) ∧
      (0 < maxHopOf edge →
        sp.root.unionBase
          = passThrough (appendFetchVertexPlan node.filter plan c).1.root) := by
  have hfu : (appendFetchVertexPlan node.filter plan c).1.root.countUnion
      = 0 := by
    simp [appendFetchVertexPlan_eq, PlanNode.countUnion, hpu]
  by_cases hM : 0 < maxHopOf edge
  · obtain ⟨sp0, c2, hrun, hcount, hall, hbase, hshape⟩ :=
      expandLoop_spec qc rev edge hef (maxHopOf edge - 0).toNat
        (passThrough (appendFetchVertexPlan node.filter plan c).1.root)
        ⟨passThrough (appendFetchVertexPlan node.filter plan c).1.root,
          (appendFetchVertexPlan node.filter plan c).1.tail⟩
        (appendFetchVertexPlan node.filter plan c).2
        (by simp [passThrough, PlanNode.countUnion, hfu, hpu])
        (allUnions_of_countUnion_zero _
          (by simp [passThrough, PlanNode.countUnion, hfu, hpu]))
        (allUnions_of_countUnion_zero _
          (by simp [passThrough, PlanNode.countUnion, hfu, hpu]))
    refine ⟨⟨sp0.root, plan.tail⟩, c2, ?_, rfl, ?_, hall, ?_, ?_⟩
    · simp only [expandSteps, h0, if_pos, if_true, hM, hrun]
    · rw [hcount]
      simp [passThrough, PlanNode.countUnion, hfu, hpu]
    · intro hle; omega
    · intro _
      rw [hbase]
      simp [PlanNode.unionBase, passThrough]
  · have hfuel : (maxHopOf edge - 0).toNat = 0 := by omega
    refine ⟨⟨(appendFetchVertexPlan node.filter plan c).1.root, plan.tail⟩,
      (appendFetchVertexPlan node.filter plan c).2, ?_, rfl, ?_, ?_, ?_, ?_⟩
    · simp only [expandSteps, h0, if_pos, hM, if_false, hfuel, expandLoop]
    · simp only [PlanNode.countUnion]
      rw [hpu]
      omega
    · exact allUnions_of_countUnion_zero _ hfu
    · intro _; exact ⟨rfl, rfl⟩
    · intro h; omega

/-- The `minHop >= 1` branch of `expandSteps`: the first hop is expanded
directly from the dependency and wrapped in a pass-through accumulator; the
loop then contributes `maxHop - 1` unions, all with column `path`; the
bottom of the union chain is the first hop's pass-through wrapper, and with
`maxHop = 1` the wrapper itself is the returned root. -/
theorem expandSteps_pos_spec (qc : QCtx) (rev : Bool) (node : NodeInfo)
    (edge : EdgeInfo) (dependency : PlanNode) (plan : SubPlan) (c : Nat)
    (hef : edgeFilterOk edge = true) (h1 : ¬ minHopOf edge = 0)
    (hdu : dependency.countUnion = 0) :
    ∃ mid v c1 sp c2,
      expandStep qc rev edge dependency node.filter c
        = some (⟨.project mid v [kPathStr] [buildPathExpr],
            .project dependency (freshVar c) [kVid] [Expr.inputProp kVid]⟩,
          c1) ∧
      expandSteps qc rev node edge dependency plan c = some (sp, c2) ∧
      sp.tail = plan.tail ∧
      sp.root.countUnion = (maxHopOf edge - 1).toNat ∧
      sp.root.allUnionsPathCol = true ∧
      sp.root.unionBase
        = passThrough (.project mid v [kPathStr] [buildPathExpr]) ∧
      ((maxHopOf edge - 1).toNat = 0 →
        sp.root = passThrough (.project mid v [kPathStr] [buildPathExpr]) ∧
        c2 = c1) ∧
      mid.stripFilters
        = .getNeighbors
            (.dedup
              (.project dependency (freshVar c) [kVid]
                [Expr.inputProp kVid])
              (freshVar (c + 1)) [kVid])
            (freshVar (c + 2)) [] (genEdgeProps qc rev edge)
            edge.direction ∧
      mid.filterDepth
        = (if node.filter.isSome then 1 else 0)
          + (if edge.filter.isSome then 1 else 0) ∧
      mid.countUnion = dependency.countUnion ∧
      mid.countJoin = dependency.countJoin ∧
      mid.countGN = dependency.countGN + 1 := by
  obtain ⟨mid, v, c1, hstep, hstrip, hdepth, hu, hj, hg, _, _, _, _,
      hall⟩ :=
    expandStep_shape qc rev edge dependency node.filter c hef
  have hptu : (passThrough
      (PlanNode.project mid v [kPathStr] [buildPathExpr])).countUnion
      = 0 := by
    simp [passThrough, PlanNode.countUnion, hu, hdu]
  obtain ⟨sp0, c2, hrun, hcount, hall2, hbase, hshape⟩ :=
    expandLoop_spec qc rev edge hef (maxHopOf edge - 1).toNat
      (passThrough (.project mid v [kPathStr] [buildPathExpr]))
      ⟨passThrough (.project mid v [kPathStr] [buildPathExpr]),
        .project dependency (freshVar c) [kVid] [Expr.inputProp kVid]⟩
      c1 hptu (allUnions_of_countUnion_zero _ hptu)
      (allUnions_of_countUnion_zero _ hptu)
  refine ⟨mid, v, c1, ⟨sp0.root, plan.tail⟩, c2, hstep, ?_, rfl, ?_, hall2,
    ?_, ?_, hstrip, hdepth, hu, hj, hg⟩
  · simp only [expandSteps, h1, if_neg, if_false, hstep, hrun]
  · rw [hcount, hptu]
    omega
  · rw [hbase]
    simp [PlanNode.unionBase, passThrough]
  · intro hf0
    rw [hf0] at hrun
    simp only [expandLoop] at hrun
    cases hrun
    exact ⟨rfl, rfl⟩

/-- C4: every `collectData` call builds, in dependency order, an inner join
of the previous accumulator and the new fragment with columns
`path_0`/`path_1`, a projection concatenating the two path columns into the
single column `path`, a same-edge filter over that column, a pass-through
accumulator with column `path`, and a union of that accumulator with the
previous union node carrying exactly `[path]`; consequently every union
node produced by the expansion loop carries the single column name
`path`. -/
theorem collectData_running_union_path :
    (∀ a b u c, collectData a b u c
      = ((.passThroughNode
            (.filterNode
              (.project
                (.innerJoin a b (freshVar c)
                  [kPathStr ++ "_0", kPathStr ++ "_1"])
                (freshVar (c + 1)) [kPathStr]
                [mergePathColumnsExpr (kPathStr ++ "_0") (kPathStr ++ "_1")])
              (freshVar (c + 2)) [kPathStr]
              (.notE (.functionCall "hasSameEdgeInPath"
                (.inputProp kPathStr))))
            (freshVar (c + 2)) [kPathStr],
          ⟨.unionNode
              (.passThroughNode
                (.filterNode
                  (.project
                    (.innerJoin a b (freshVar c)
                      [kPathStr ++ "_0", kPathStr ++ "_1"])
                    (freshVar (c + 1)) [kPathStr]
                    [mergePathColumnsExpr (kPathStr ++ "_0")
                      (kPathStr ++ "_1")])
                  (freshVar (c + 2)) [kPathStr]
                  (.notE (.functionCall "hasSameEdgeInPath"
                    (.inputProp kPathStr))))
                (freshVar (c + 2)) [kPathStr])
              u (freshVar (c + 3)) [kPathStr],
            .innerJoin a b (freshVar c)
              [kPathStr ++ "_0", kPathStr ++ "_1"]⟩),
        c + 4)) ∧
    (∀ qc rev node edge dependency plan c sp c2,
      edgeFilterOk edge = true →
      PlanNode.countUnion dependency = 0 →
      plan.root.countUnion = 0 →
      expandSteps qc rev node edge dependency plan c = some (sp, c2) →
      sp.root.allUnionsPathCol = true) := by
  refine ⟨collectData_eq, ?_⟩
  intro qc rev node edge dependency plan c sp c2 hef hdu hpu hrun
  by_cases h0 : minHopOf edge = 0
  · obtain ⟨sp2, c3, hrun2, _, _, hall, _, _⟩ :=
      expandSteps_zero_spec qc rev node edge dependency plan c hef h0 hpu
    rw [hrun] at hrun2
    obtain ⟨h1, h2⟩ := Prod.mk.injEq .. ▸ Option.some.injEq .. ▸ hrun2
    exact h1 ▸ hall
  · obtain ⟨mid, v, c1, sp2, c3, hstep, hrun2, _, _, hall, _⟩ :=
      expandSteps_pos_spec qc rev node edge dependency plan c hef h0 hdu
    rw [hrun] at hrun2
    obtain ⟨h1, h2⟩ := Prod.mk.injEq .. ▸ Option.some.injEq .. ▸ hrun2
    exact h1 ▸ hall

/-- Witness for C4 at a concrete 2-hop expansion. -/
theorem collectData_running_union_path_witness :
    ∃ sp c2,
      expandSteps (⟨fun _ => ["w"]⟩ : QCtx) false ⟨none⟩
          ⟨.OUT_EDGE, [7], some ⟨1, 2⟩, none⟩ (.start "d" ["c"])
          ⟨.start "p" ["c"], .start "p" ["c"]⟩ 0 = some (sp, c2) ∧
      sp.root.allUnionsPathCol = true := by
  cases h : expandSteps (⟨fun _ => ["w"]⟩ : QCtx) false ⟨none⟩
      ⟨.OUT_EDGE, [7], some ⟨1, 2⟩, none⟩ (.start "d" ["c"])
      ⟨.start "p" ["c"], .start "p" ["c"]⟩ 0 with
  | none => exact absurd h (by decide)
  | some pr =>
    obtain ⟨sp0, c20⟩ := pr
    exact ⟨sp0, c20, rfl,
      collectData_running_union_path.2 _ false ⟨none⟩ _ _ _ 0 sp0 c20
        (by decide) (by decide) (by decide) h⟩

/-- C5: `expandSteps` always terminates, and for a well-formed range
`0 <= minHop <= maxHop` its expansion loop executes its body exactly
`maxHop - startIndex` times (`startIndex` being `0` when `minHop = 0` and
`1` otherwise): each body execution creates exactly one union node, and the
returned plan contains exactly `maxHop - startIndex` of them. -/
theorem expandSteps_loop_count (qc : QCtx) (rev : Bool) (node : NodeInfo)
    (edge : EdgeInfo) (dependency : PlanNode) (plan : SubPlan) (c : Nat)
    (hef : edgeFilterOk edge = true)
    (hdu : dependency.countUnion = 0) (hpu : plan.root.countUnion = 0)
    (hlo : 0 ≤ minHopOf edge) (hhi : minHopOf edge ≤ maxHopOf edge) :
    ∃ sp c2,
      expandSteps qc rev node edge dependency plan c = some (sp, c2) ∧
      sp.root.countUnion = (maxHopOf edge - startIndexOf edge).toNat ∧
      ((maxHopOf edge - startIndexOf edge).toNat : Int)
        = maxHopOf edge - startIndexOf edge := by
  by_cases h0 : minHopOf edge = 0
  · obtain ⟨sp, c2, hrun, _, hcount, _, _, _⟩ :=
      expandSteps_zero_spec qc rev node edge dependency plan c hef h0 hpu
    refine ⟨sp, c2, hrun, ?_, ?_⟩
    · rw [hcount]
      simp only [startIndexOf, h0, if_pos, if_true]
      omega
    · simp only [startIndexOf, h0, if_pos, if_true]
      omega
  · obtain ⟨mid, v, c1, sp, c2, hstep, hrun, _, hcount, _, _⟩ :=
      expandSteps_pos_spec qc rev node edge dependency plan c hef h0 hdu
    refine ⟨sp, c2, hrun, ?_, ?_⟩
    · rw [hcount]
      simp only [startIndexOf, h0, if_neg, if_false]
    · simp only [startIndexOf, h0, if_neg, if_false]
      omega

/-- Witness for C5 with range `[1, 3]`: the loop body runs twice. -/
theorem expandSteps_loop_count_witness :
    ∃ sp c2,
      expandSteps (⟨fun _ => ["w"]⟩ : QCtx) false ⟨none⟩
          ⟨.OUT_EDGE, [7], some ⟨1, 3⟩, none⟩ (.start "d" ["c"])
          ⟨.start "p" ["c"], .start "p" ["c"]⟩ 0 = some (sp, c2) ∧
      sp.root.countUnion
        = (maxHopOf ⟨.OUT_EDGE, [7], some ⟨1, 3⟩, none⟩
            - startIndexOf ⟨.OUT_EDGE, [7], some ⟨1, 3⟩, none⟩).toNat ∧
      ((maxHopOf ⟨.OUT_EDGE, [7], some ⟨1, 3⟩, none⟩
          - startIndexOf ⟨.OUT_EDGE, [7], some ⟨1, 3⟩, none⟩).toNat : Int)
        = maxHopOf ⟨.OUT_EDGE, [7], some ⟨1, 3⟩, none⟩
          - startIndexOf ⟨.OUT_EDGE, [7], some ⟨1, 3⟩, none⟩ :=
  expandSteps_loop_count (⟨fun _ => ["w"]⟩ : QCtx) false ⟨none⟩
    ⟨.OUT_EDGE, [7], some ⟨1, 3⟩, none⟩ (.start "d" ["c"])
    ⟨.start "p" ["c"], .start "p" ["c"]⟩ 0 (by decide) (by decide)
    (by decide) (by decide) (by decide)

/-- C6: with `minHop = 0` the zero-hop branch appends a fetch-vertex plan
(a `GetVertices`, not a neighbor fetch) for the starting vertex; the result
is wrapped in a pass-through node iff `maxHop > 0` (for `maxHop = 0` the
fetch-vertex projection itself is the plan root and no neighbor fetch, join
or union is created; for `maxHop > 0` the bottom of the union chain is the
pass-through wrapper of the fetch-vertex root). -/
theorem expandSteps_zero_hop_fetch_vertex (qc : QCtx) (rev : Bool)
    (node : NodeInfo) (dir : Direction) (ts : List Int) (ef : Option Expr)
    (M : Int) (dependency : PlanNode) (plan : SubPlan) (c : Nat)
    (hef : edgeFilterOk ⟨dir, ts, some ⟨0, M⟩, ef⟩ = true)
    (hpu : plan.root.countUnion = 0) :
    ∃ sp c2,
      expandSteps qc rev node ⟨dir, ts, some ⟨0, M⟩, ef⟩ dependency plan c
        = some (sp, c2) ∧
      (M = 0 →
        sp.root = .project
          (.getVertices
            (.dedup
              (.project plan.root (freshVar c) [kVid] [Expr.inputProp kVid])
              (freshVar (c + 1)) [kVid])
            (freshVar (c + 2)) [])
          (freshVar (c + 3)) [kPathStr] [Expr.pathBuild1 .vertex] ∧
        sp.root.isPassThrough = false ∧
        sp.root.countGN = plan.root.countGN ∧
        sp.root.countJoin = plan.root.countJoin ∧
        sp.root.countUnion = plan.root.countUnion) ∧
      (0 < M →
        sp.root.unionBase = passThrough
          (.project
            (.getVertices
              (.dedup
                (.project plan.root (freshVar c) [kVid]
                  [Expr.inputProp kVid])
                (freshVar (c + 1)) [kVid])
              (freshVar (c + 2)) [])
            (freshVar (c + 3)) [kPathStr] [Expr.pathBuild1 .vertex])) := by
  obtain ⟨sp, c2, hrun, _, hcount, _, hzero, hpos⟩ :=
    expandSteps_zero_spec qc rev node ⟨dir, ts, some ⟨0, M⟩, ef⟩ dependency
      plan c hef rfl hpu
  refine ⟨sp, c2, hrun, ?_, ?_⟩
  · intro hM0
    have hle : maxHopOf ⟨dir, ts, some ⟨0, M⟩, ef⟩ ≤ 0 := by
      simp [maxHopOf, hM0]
    obtain ⟨hroot, _⟩ := hzero hle
    rw [appendFetchVertexPlan_eq] at hroot
    refine ⟨hroot, ?_, ?_, ?_, ?_⟩
    · simp [hroot, PlanNode.isPassThrough]
    · simp [hroot, PlanNode.countGN]
    · simp [hroot, PlanNode.countJoin]
    · rw [hcount]
      simp [maxHopOf, hM0, hpu]
  · intro hM
    have hlt : 0 < maxHopOf ⟨dir, ts, some ⟨0, M⟩, ef⟩ := by
      simp [maxHopOf]; exact hM
    have hbase := hpos hlt
    rw [appendFetchVertexPlan_eq] at hbase
    exact hbase

/-- Witness for C6 at `range = [0, 2]` and at `range = [0, 0]`. -/
theorem expandSteps_zero_hop_fetch_vertex_witness :
    (∃ sp c2,
      expandSteps (⟨fun _ => ["w"]⟩ : QCtx) false ⟨none⟩
          ⟨.OUT_EDGE, [7], some ⟨0, 2⟩, none⟩ (.start "d" ["c"])
          ⟨.start "p" ["c"], .start "p" ["c"]⟩ 0 = some (sp, c2) ∧
      ((2 : Int) = 0 → sp.root = PlanNode.project
          (.getVertices
            (.dedup
              (.project (.start "p" ["c"]) (freshVar 0) [kVid]
                [Expr.inputProp kVid])
              (freshVar 1) [kVid])
            (freshVar 2) [])
          (freshVar 3) [kPathStr] [Expr.pathBuild1 .vertex] ∧
        sp.root.isPassThrough = false ∧
        sp.root.countGN = (PlanNode.start "p" ["c"]).countGN ∧
        sp.root.countJoin = (PlanNode.start "p" ["c"]).countJoin ∧
        sp.root.countUnion = (PlanNode.start "p" ["c"]).countUnion) ∧
      ((0 : Int) < 2 → sp.root.unionBase = passThrough (PlanNode.project
          (.getVertices
            (.dedup
              (.project (.start "p" ["c"]) (freshVar 0) [kVid]
                [Expr.inputProp kVid])
              (freshVar 1) [kVid])
            (freshVar 2) [])
          (freshVar 3) [kPathStr] [Expr.pathBuild1 .vertex]))) := by
  exact expandSteps_zero_hop_fetch_vertex (⟨fun _ => ["w"]⟩ : QCtx) false
    ⟨none⟩ .OUT_EDGE [7] none 2 (.start "d" ["c"])
    ⟨.start "p" ["c"], .start "p" ["c"]⟩ 0 (by decide) (by decide)

/-- C7: with no declared hop range (or any valid range with
`minHop >= 1` and `maxHop = 1`), `doExpand` builds exactly one
neighbor-fetch stage and no union and no join: the root is the path-length
filter with minimum hop `1` over the pass-through wrapper of the single
one-hop projection. -/
theorem doExpand_single_fetch (qc : QCtx) (rev : Bool) (node : NodeInfo)
    (edge : EdgeInfo) (dependency : PlanNode) (plan : SubPlan) (c : Nat)
    (hef : edgeFilterOk edge = true) (hdu : dependency.countUnion = 0)
    (hrange : edge.range = none ∨
      ∃ rg, edge.range = some rg ∧ 1 ≤ rg.min ∧ rg.min ≤ rg.max ∧
        rg.max = 1) :
    ∃ sp c2 mid v v2,
      doExpand qc rev node edge dependency plan c = some (sp, c2) ∧
      sp.root = .filterNode
        (passThrough (.project mid v [kPathStr] [buildPathExpr]))
        v2 [kPathStr]
        (.relGE (.functionCall "length" (.inputProp kPathStr))
          (.constant 1)) ∧
      sp.root.countGN = dependency.countGN + 1 ∧
      sp.root.countUnion = 0 ∧
      sp.root.countJoin = dependency.countJoin := by
  have hmin : minHopOf edge = 1 := by
    rcases hrange with hr | ⟨rg, hr, h1, h2, h3⟩
    · simp [minHopOf, hr]
    · simp only [minHopOf, hr]
      omega
  have hmax : maxHopOf edge = 1 := by
    rcases hrange with hr | ⟨rg, hr, h1, h2, h3⟩
    · simp [maxHopOf, hr]
    · simp [maxHopOf, hr, h3]
  obtain ⟨mid, v, c1, sp2, c2, hstep, hrun, htail, hcount, hall, hbase,
      hone, hstrip, hdepth, hu, hj, hg⟩ :=
    expandSteps_pos_spec qc rev node edge dependency plan c hef
      (by rw [hmin]; omega) hdu
  have hfuel : (maxHopOf edge - 1).toNat = 0 := by rw [hmax]; rfl
  obtain ⟨hroot, hc⟩ := hone hfuel
  have hdo : doExpand qc rev node edge dependency plan c
      = some (⟨.filterNode sp2.root (freshVar c2) sp2.root.colNames
          (.relGE (.functionCall "length" (.inputProp kPathStr))
            (.constant (minHopOf edge))), sp2.tail⟩, c2 + 1) := by
    simp only [doExpand, hrun, filterDatasetByPathLength]
  have hcols : sp2.root.colNames = [kPathStr] := by
    simp [hroot, passThrough, PlanNode.colNames]
  rw [hcols, hmin, hroot] at hdo
  refine ⟨⟨.filterNode
      (passThrough (.project mid v [kPathStr] [buildPathExpr]))
      (freshVar c2) [kPathStr]
      (.relGE (.functionCall "length" (.inputProp kPathStr))
        (.constant 1)), sp2.tail⟩, c2 + 1, mid, v, freshVar c2, hdo, rfl,
    ?_, ?_, ?_⟩
  · simp [passThrough, PlanNode.countGN, PlanNode.colNames, hg]
  · simp [passThrough, PlanNode.countUnion, PlanNode.colNames, hu, hdu]
  · simp [passThrough, PlanNode.countJoin, PlanNode.colNames, hj]

/-- Witness for C7 at the spec scenario
`EdgeInfo{direction=BOTH, types=[7], range=null}`. -/
theorem doExpand_single_fetch_witness :
    ∃ sp c2 mid v v2,
      doExpand (⟨fun _ => ["w"]⟩ : QCtx) false ⟨none⟩
          ⟨.BOTH, [7], none, none⟩ (.start "d" ["c"])
          ⟨.start "p" ["c"], .start "p" ["c"]⟩ 0 = some (sp, c2) ∧
      sp.root = .filterNode
        (passThrough (.project mid v [kPathStr] [buildPathExpr]))
        v2 [kPathStr]
        (.relGE (.functionCall "length" (.inputProp kPathStr))
          (.constant 1)) ∧
      sp.root.countGN = (PlanNode.start "d" ["c"]).countGN + 1 ∧
      sp.root.countUnion = 0 ∧
      sp.root.countJoin = (PlanNode.start "d" ["c"]).countJoin :=
  doExpand_single_fetch (⟨fun _ => ["w"]⟩ : QCtx) false ⟨none⟩
    ⟨.BOTH, [7], none, none⟩ (.start "d" ["c"])
    ⟨.start "p" ["c"], .start "p" ["c"]⟩ 0 (by decide) (by decide)
    (Or.inl rfl)

/-- C8: every successful `expandStep` returns a subplan whose root projects
the one-hop path value (built from the fetched vertex and edge) into the
single column `path`, whose tail is the frontier extract node built from
the given dependency, and in which the rewritten vertex filter and then the
rewritten edge filter sit between the neighbor fetch and the projection
exactly when the corresponding input filter is non-null. -/
theorem expandStep_builds_path_projection (qc : QCtx) (rev : Bool)
    (edge : EdgeInfo) (dep : PlanNode) (nf : Option Expr) (c : Nat)
    (hef : edgeFilterOk edge = true) :
    ∃ mid v c2,
      expandStep qc rev edge dep nf c
        = some (⟨.project mid v [kPathStr] [buildPathExpr],
            .project dep (freshVar c) [kVid] [Expr.inputProp kVid]⟩, c2) ∧
      mid.stripFilters
        = .getNeighbors
            (.dedup
              (.project dep (freshVar c) [kVid] [Expr.inputProp kVid])
              (freshVar (c + 1)) [kVid])
            (freshVar (c + 2)) [] (genEdgeProps qc rev edge)
            edge.direction ∧
      mid.filterDepth
        = (if nf.isSome then 1 else 0)
          + (if edge.filter.isSome then 1 else 0) ∧
      (nf = none ∧ edge.filter = none →
        mid = .getNeighbors
          (.dedup (.project dep (freshVar c) [kVid] [Expr.inputProp kVid])
            (freshVar (c + 1)) [kVid])
          (freshVar (c + 2)) [] (genEdgeProps qc rev edge)
          edge.direction) ∧
      (∀ f, nf = some f → edge.filter = none →
        mid = .filterNode
          (.getNeighbors
            (.dedup (.project dep (freshVar c) [kVid] [Expr.inputProp kVid])
              (freshVar (c + 1)) [kVid])
            (freshVar (c + 2)) [] (genEdgeProps qc rev edge) edge.direction)
          (freshVar (c + 3)) [] (specVertexSubst f)) ∧
      (∀ g, nf = none → edge.filter = some g →
        mid = .filterNode
          (.getNeighbors
            (.dedup (.project dep (freshVar c) [kVid] [Expr.inputProp kVid])
              (freshVar (c + 1)) [kVid])
            (freshVar (c + 2)) [] (genEdgeProps qc rev edge) edge.direction)
          (freshVar (c + 3)) [] (specEdgeSubst g)) ∧
      (∀ f g, nf = some f → edge.filter = some g →
        mid = .filterNode
          (.filterNode
            (.getNeighbors
              (.dedup
                (.project dep (freshVar c) [kVid] [Expr.inputProp kVid])
                (freshVar (c + 1)) [kVid])
              (freshVar (c + 2)) [] (genEdgeProps qc rev edge)
              edge.direction)
            (freshVar (c + 3)) [] (specVertexSubst f))
          (freshVar (c + 4)) [] (specEdgeSubst g)) := by
  obtain ⟨mid, v, c2, hstep, hstrip, hdepth, _, _, _, hnn, hvs, hes, hvv,
      _⟩ := expandStep_shape qc rev edge dep nf c hef
  exact ⟨mid, v, c2, hstep, hstrip, hdepth, hnn, hvs, hes, hvv⟩

/-- Witness for C8 with both filters present. -/
theorem expandStep_builds_path_projection_witness :
    ∃ mid v c2,
      expandStep (⟨fun _ => ["w"]⟩ : QCtx) false
          ⟨.IN_EDGE, [5], none, some (.labelAttribute "e" "b")⟩
          (.start "d" ["c"]) (some (.labelAttribute "n" "a")) 0
        = some (⟨.project mid v [kPathStr] [buildPathExpr],
            .project (.start "d" ["c"]) (freshVar 0) [kVid]
              [Expr.inputProp kVid]⟩, c2) ∧
      mid.stripFilters
        = .getNeighbors
            (.dedup
              (.project (.start "d" ["c"]) (freshVar 0) [kVid]
                [Expr.inputProp kVid])
              (freshVar 1) [kVid])
            (freshVar 2) []
            (genEdgeProps (⟨fun _ => ["w"]⟩ : QCtx) false
              ⟨.IN_EDGE, [5], none, some (.labelAttribute "e" "b")⟩)
            .IN_EDGE ∧
      mid.filterDepth
        = (if (some (Expr.labelAttribute "n" "a")).isSome then 1 else 0)
          + (if (some (Expr.labelAttribute "e" "b")).isSome then 1
              else 0) ∧
      (some (Expr.labelAttribute "n" "a") = none ∧
        some (Expr.labelAttribute "e" "b") = none →
        mid = .getNeighbors
          (.dedup
            (.project (.start "d" ["c"]) (freshVar 0) [kVid]
              [Expr.inputProp kVid])
            (freshVar 1) [kVid])
          (freshVar 2) []
          (genEdgeProps (⟨fun _ => ["w"]⟩ : QCtx) false
            ⟨.IN_EDGE, [5], none, some (.labelAttribute "e" "b")⟩)
          .IN_EDGE) ∧
      (∀ f, some (Expr.labelAttribute "n" "a") = some f →
        some (Expr.labelAttribute "e" "b") = none →
        mid = .filterNode
          (.getNeighbors
            (.dedup
              (.project (.start "d" ["c"]) (freshVar 0) [kVid]
                [Expr.inputProp kVid])
              (freshVar 1) [kVid])
            (freshVar 2) []
            (genEdgeProps (⟨fun _ => ["w"]⟩ : QCtx) false
              ⟨.IN_EDGE, [5], none, some (.labelAttribute "e" "b")⟩)
            .IN_EDGE)
          (freshVar 3) [] (specVertexSubst f)) ∧
      (∀ g, some (Expr.labelAttribute "n" "a") = none →
        some (Expr.labelAttribute "e" "b") = some g →
        mid = .filterNode
          (.getNeighbors
            (.dedup
              (.project (.start "d" ["c"]) (freshVar 0) [kVid]
                [Expr.inputProp kVid])
              (freshVar 1) [kVid])
            (freshVar 2) []
            (genEdgeProps (⟨fun _ => ["w"]⟩ : QCtx) false
              ⟨.IN_EDGE, [5], none, some (.labelAttribute "e" "b")⟩)
            .IN_EDGE)
          (freshVar 3) [] (specEdgeSubst g)) ∧
      (∀ f g, some (Expr.labelAttribute "n" "a") = some f →
        some (Expr.labelAttribute "e" "b") = some g →
        mid = .filterNode
          (.filterNode
            (.getNeighbors
              (.dedup
                (.project (.start "d" ["c"]) (freshVar 0) [kVid]
                  [Expr.inputProp kVid])
                (freshVar 1) [kVid])
              (freshVar 2) []
              (genEdgeProps (⟨fun _ => ["w"]⟩ : QCtx) false
                ⟨.IN_EDGE, [5], none, some (.labelAttribute "e" "b")⟩)
              .IN_EDGE)
            (freshVar 3) [] (specVertexSubst f))
          (freshVar 4) [] (specEdgeSubst g)) :=
  expandStep_builds_path_projection (⟨fun _ => ["w"]⟩ : QCtx) false
    ⟨.IN_EDGE, [5], none, some (.labelAttribute "e" "b")⟩
    (.start "d" ["c"]) (some (.labelAttribute "n" "a")) 0 (by decide)

/-- C9: the label-rewrite applied to vertex and edge filters replaces every
label-attribute reference by a vertex- resp. edge-attribute reference with
the same field name and every bare label by a vertex value reference
(matching the spec-side substitution), leaves no label reference in the
result, and the edge rewriter asserts (contract violation) exactly when a
disallowed bare-label reference occurs. -/
theorem rewriteMatchLabel_substitution (e : Expr) :
    (rewriteMatchLabel vertexFilterRewriter e = some (specVertexSubst e) ∧
      hasLabelRef (specVertexSubst e) = false) ∧
    (noBareLabel e = true →
      rewriteMatchLabel edgeFilterRewriter e = some (specEdgeSubst e) ∧
      hasLabelRef (specEdgeSubst e) = false) ∧
    (noBareLabel e = false →
      rewriteMatchLabel edgeFilterRewriter e = none) := by
  refine ⟨⟨rewriteV_eq e, specVertexSubst_noLabel e⟩, fun h =>
    ⟨rewriteE_eq e h, specEdgeSubst_noLabel e h⟩, fun h =>
    rewriteE_none e h⟩

/-- Witness for C9 at a concrete label-attribute filter and at a bare-label
edge filter (the asserted contract violation). -/
theorem rewriteMatchLabel_substitution_witness :
    (rewriteMatchLabel edgeFilterRewriter (.labelAttribute "n" "a")
        = some (specEdgeSubst (.labelAttribute "n" "a")) ∧
      hasLabelRef (specEdgeSubst (.labelAttribute "n" "a")) = false) ∧
    rewriteMatchLabel edgeFilterRewriter (.label "n") = none :=
  ⟨(rewriteMatchLabel_substitution (.labelAttribute "n" "a")).2.1
      (by decide),
    (rewriteMatchLabel_substitution (.label "n")).2.2 (by decide)⟩

/-- C10: `Expand::passThrough` returns a pass-through node depending on the
given node and copying its output variable and column names, leaving the
node itself untouched; the pass-through accumulator built in `collectData`
copies the output variable of the same-edge filter node it wraps. -/
theorem passThrough_copies_var_cols :
    (∀ r : PlanNode,
      passThrough r = .passThroughNode r r.outputVar r.colNames) ∧
    (∀ a b u c, ∃ d v cols cond,
      (collectData a b u c).1.1
        = .passThroughNode (.filterNode d v cols cond) v [kPathStr]) := by
  refine ⟨fun r => rfl, fun a b u c => ⟨_, _, _, _, rfl⟩⟩

end NebulaExpand
